import Mathlib

/-!
Verification of the `rocket` package: a shallow embedding over the reals of
the Go source (vector.go, rocket.go).  Go `float64` arithmetic is modelled
by exact real arithmetic; `math.Sqrt` by `Real.sqrt`, `math.Acosh` by an
explicit `acosh` defined through `Real.log` and `Real.sqrt`.
-/

namespace RocketPkg

noncomputable section

/-- The speed of light constant `C = 299792458` from rocket.go. -/
def C : ℝ := 299792458

/-- `LightYear` constant from rocket.go. -/
def LightYear : ℝ := 9460730472580800

/-- `Year` constant from rocket.go. -/
def Year : ℝ := 3600 * 24 * 365

/-- `G` constant from rocket.go. -/
def G : ℝ := 9.8

/-- The `Vector3` struct of vector.go: three real components. -/
structure Vector3 where
  x : ℝ
  y : ℝ
  z : ℝ

/-- `Vector3.Magnitude`: `math.Sqrt(v.x*v.x + v.y*v.y + v.z*v.z)`. -/
def Vector3.Magnitude (v : Vector3) : ℝ :=
  Real.sqrt (v.x * v.x + v.y * v.y + v.z * v.z)

/-- The epsilon used by `Vector3.Normalized` in vector.go. -/
def normEps : ℝ := 9.99999974737875e-06

/-- `Vector3.Normalized`: if the magnitude is at or below `normEps`,
return the zero vector; otherwise divide each component by the magnitude. -/
def Vector3.Normalized (v : Vector3) : Vector3 :=
  let m := v.Magnitude
  if m ≤ normEps then ⟨0, 0, 0⟩
  else ⟨v.x / m, v.y / m, v.z / m⟩

/-- `Vector3.Add`: componentwise sum. -/
def Vector3.Add (v w : Vector3) : Vector3 :=
  ⟨v.x + w.x, v.y + w.y, v.z + w.z⟩

/-- `Vector3.MultiplyByScalar`: componentwise multiplication by a scalar. -/
def Vector3.MultiplyByScalar (v : Vector3) (s : ℝ) : Vector3 :=
  ⟨v.x * s, v.y * s, v.z * s⟩

/-- `CoordinateTime(d, a)` from rocket.go: `q := d/C; sqrt(q*q + 2*d/a)`. -/
def CoordinateTime (d a : ℝ) : ℝ :=
  let q := d / C
  Real.sqrt (q * q + 2 * d / a)

/-- `Velocity(a, t)` from rocket.go: `at := a*t; at / sqrt(1+(at/C)*(at/C))`. -/
def Velocity (a t : ℝ) : ℝ :=
  let at_ := a * t
  at_ / Real.sqrt (1 + (at_ / C) * (at_ / C))

/-- `CoordinateTimeToReachVelocity(a, v)` from rocket.go:
`(C*v) / (a * sqrt(C*C - v*v))`. -/
def CoordinateTimeToReachVelocity (a v : ℝ) : ℝ :=
  (C * v) / (a * Real.sqrt (C * C - v * v))

/-- `VelocityWithV0(a, t, v0)` from rocket.go: fast path when `v0 == 0`,
otherwise shift time by `CoordinateTimeToReachVelocity(a, v0)`. -/
def VelocityWithV0 (a t v0 : ℝ) : ℝ :=
  if v0 = 0 then Velocity a t
  else
    let t0 := CoordinateTimeToReachVelocity a v0
    Velocity a (t0 + t)

/-- `ProperVelocity(v)` from rocket.go: `r := v/C; v / sqrt(1 - r*r)`. -/
def ProperVelocity (v : ℝ) : ℝ :=
  let r := v / C
  v / Real.sqrt (1 - r * r)

/-- `CoordinateVelocity(w)` from rocket.go: `(C*w) / sqrt(C*C + w*w)`. -/
def CoordinateVelocity (w : ℝ) : ℝ :=
  (C * w) / Real.sqrt (C * C + w * w)

/-- The inverse hyperbolic cosine, modelling Go `math.Acosh`:
`acosh x = log (x + sqrt (x*x - 1))`. -/
def acosh (x : ℝ) : ℝ :=
  Real.log (x + Real.sqrt (x * x - 1))

/-- `ProperTime(d, a)` from rocket.go: `(C/a) * acosh((a*d)/(C*C) + 1)`. -/
def ProperTime (d a : ℝ) : ℝ :=
  (C / a) * acosh ((a * d) / (C * C) + 1)

/-- `LorentzFactor(a, t)` from rocket.go: `x := (a*t)/C; sqrt(1 + x*x)`. -/
def LorentzFactor (a t : ℝ) : ℝ :=
  let x := (a * t) / C
  Real.sqrt (1 + x * x)

/-- The `Rocket` struct: proper velocity `W`, coordinate time `T`,
proper time `Tau`. -/
structure Rocket where
  W : Vector3
  T : ℝ
  Tau : ℝ

/-- `Rocket.V()`: `CoordinateVelocity(r.W.Magnitude())`. -/
def Rocket.V (r : Rocket) : ℝ :=
  CoordinateVelocity r.W.Magnitude

/-- `Rocket.LorentzFactor()`: `1 / sqrt(1 - (v*v)/(C*C))` where `v = r.V()`. -/
def Rocket.LorentzFactor (r : Rocket) : ℝ :=
  let v := r.V
  1 / Real.sqrt (1 - (v * v) / (C * C))

/-- `Rocket.Accelerate(a, dt)`: mutates `W`, then `T`, then `Tau`; the
Lorentz factor in the `Tau` update is read from the already-updated state. -/
def Rocket.Accelerate (r : Rocket) (a : Vector3) (dt : ℝ) : Rocket :=
  let W' : Vector3 := ⟨r.W.x + a.x * dt, r.W.y + a.y * dt, r.W.z + a.z * dt⟩
  let mid : Rocket := ⟨W', r.T + dt, r.Tau⟩
  ⟨W', r.T + dt, r.Tau + dt / mid.LorentzFactor⟩

/-- `Rocket.AccelerateOnProperTime(a, dtau)`: computes
`dt := r.LorentzFactor() * dtau` from the pre-update state, then mutates. -/
def Rocket.AccelerateOnProperTime (r : Rocket) (a : Vector3) (dtau : ℝ) : Rocket :=
  let dt := r.LorentzFactor * dtau
  ⟨⟨r.W.x + a.x * dt, r.W.y + a.y * dt, r.W.z + a.z * dt⟩, r.T + dt, r.Tau + dtau⟩

/-- A single integrator step: either of the two step operations with its
acceleration vector and time delta. -/
inductive Step where
  | byCoordinateTime (a : Vector3) (dt : ℝ)
  | byProperTime (a : Vector3) (dtau : ℝ)

/-- The time delta carried by a step. -/
def Step.delta : Step → ℝ
  | .byCoordinateTime _ dt => dt
  | .byProperTime _ dtau => dtau

/-- Apply one step to a rocket state. -/
def applyStep (r : Rocket) (s : Step) : Rocket :=
  match s with
  | .byCoordinateTime a dt => r.Accelerate a dt
  | .byProperTime a dtau => r.AccelerateOnProperTime a dtau

end

/-! ### Helper lemmas -/

theorem C_pos : (0 : ℝ) < C := by norm_num [C]

theorem magnitude_nonneg (v : Vector3) : 0 ≤ v.Magnitude :=
  Real.sqrt_nonneg _

theorem coordinateVelocity_nonneg {w : ℝ} (hw : 0 ≤ w) :
    0 ≤ CoordinateVelocity w := by
  unfold CoordinateVelocity
  exact div_nonneg (mul_nonneg C_pos.le hw) (Real.sqrt_nonneg _)

theorem coordinateVelocity_lt_C {w : ℝ} (hw : 0 ≤ w) :
    CoordinateVelocity w < C := by
  unfold CoordinateVelocity
  have hpos : (0 : ℝ) < C * C + w * w := by nlinarith [C_pos]
  have hsq : 0 < Real.sqrt (C * C + w * w) := Real.sqrt_pos.mpr hpos
  rw [div_lt_iff₀ hsq]
  have hwlt : w < Real.sqrt (C * C + w * w) := by
    have h1 : w * w < C * C + w * w := by nlinarith [C_pos]
    calc w = Real.sqrt (w * w) := (Real.sqrt_mul_self hw).symm
    _ < Real.sqrt (C * C + w * w) := by
        exact Real.sqrt_lt_sqrt (mul_self_nonneg w) h1
  nlinarith [C_pos, hwlt]

theorem sqrt_CC_add_pos (w : ℝ) : 0 < Real.sqrt (C * C + w * w) :=
  Real.sqrt_pos.mpr (by nlinarith [C_pos])

theorem lorentz_radicand_eq (r : Rocket) :
    1 - (r.V * r.V) / (C * C) =
      (C / Real.sqrt (C * C + r.W.Magnitude * r.W.Magnitude)) ^ 2 := by
  set w := r.W.Magnitude with hwdef
  have hS : 0 < Real.sqrt (C * C + w * w) := sqrt_CC_add_pos w
  have hS2 : Real.sqrt (C * C + w * w) * Real.sqrt (C * C + w * w) = C * C + w * w :=
    Real.mul_self_sqrt (by nlinarith [C_pos])
  have hv : r.V = C * w / Real.sqrt (C * C + w * w) := rfl
  have hSsq : Real.sqrt (C * C + w * w) ^ 2 = C * C + w * w :=
    Real.sq_sqrt (by nlinarith [C_pos])
  have hCne : C ≠ 0 := ne_of_gt C_pos
  have hne : C * C + w * w ≠ 0 := ne_of_gt (by nlinarith [C_pos])
  rw [hv, div_pow, hSsq, div_mul_div_comm, hS2, div_div]
  field_simp
  ring

theorem lorentzFactor_eq (r : Rocket) :
    r.LorentzFactor =
      Real.sqrt (C * C + r.W.Magnitude * r.W.Magnitude) / C := by
  set w := r.W.Magnitude with hwdef
  have hS : 0 < Real.sqrt (C * C + w * w) := sqrt_CC_add_pos w
  have h1 := lorentz_radicand_eq r
  show 1 / Real.sqrt (1 - (r.V * r.V) / (C * C)) = _
  rw [h1, Real.sqrt_sq (div_nonneg C_pos.le hS.le), one_div_div]

theorem one_le_lorentzFactor (r : Rocket) : 1 ≤ r.LorentzFactor := by
  rw [lorentzFactor_eq r]
  rw [le_div_iff₀ C_pos, one_mul]
  calc C = Real.sqrt (C * C) := (Real.sqrt_mul_self C_pos.le).symm
  _ ≤ Real.sqrt (C * C + r.W.Magnitude * r.W.Magnitude) := by
      exact Real.sqrt_le_sqrt (by nlinarith [mul_self_nonneg r.W.Magnitude])

theorem lorentzFactor_pos (r : Rocket) : 0 < r.LorentzFactor :=
  lt_of_lt_of_le one_pos (one_le_lorentzFactor r)

theorem accelerate_T (r : Rocket) (a : Vector3) (dt : ℝ) :
    (r.Accelerate a dt).T = r.T + dt := rfl

theorem accelerate_Tau (r : Rocket) (a : Vector3) (dt : ℝ) :
    (r.Accelerate a dt).Tau =
      r.Tau + dt / (r.Accelerate a dt).LorentzFactor := rfl

theorem acceleratePT_T (r : Rocket) (a : Vector3) (dtau : ℝ) :
    (r.AccelerateOnProperTime a dtau).T = r.T + r.LorentzFactor * dtau := rfl

theorem acceleratePT_Tau (r : Rocket) (a : Vector3) (dtau : ℝ) :
    (r.AccelerateOnProperTime a dtau).Tau = r.Tau + dtau := rfl

/-! ### Claim theorems -/

/-- C1: `Accelerate(a, dt)` maps state `(W, T, Tau)` to exactly
`(W + a*dt, T + dt, Tau + dt/gamma)` where `gamma` is the instantaneous
Lorentz factor computed from the proper velocity after the update
`W + a*dt`, not from the pre-update velocity. -/
theorem accelerate_step_exact (r : Rocket) (a : Vector3) (dt : ℝ) :
    (r.Accelerate a dt).W =
      ⟨r.W.x + a.x * dt, r.W.y + a.y * dt, r.W.z + a.z * dt⟩ ∧
    (r.Accelerate a dt).T = r.T + dt ∧
    (r.Accelerate a dt).Tau =
      r.Tau + dt / (1 / Real.sqrt (1 -
        CoordinateVelocity
          (Vector3.mk (r.W.x + a.x * dt) (r.W.y + a.y * dt) (r.W.z + a.z * dt)).Magnitude ^ 2
          / C ^ 2)) := by
  refine ⟨rfl, rfl, ?_⟩
  have h : (r.Accelerate a dt).LorentzFactor =
      1 / Real.sqrt (1 -
        CoordinateVelocity
          (Vector3.mk (r.W.x + a.x * dt) (r.W.y + a.y * dt) (r.W.z + a.z * dt)).Magnitude ^ 2
          / C ^ 2) := by
    show 1 / Real.sqrt (1 -
        (CoordinateVelocity
            (Vector3.mk (r.W.x + a.x * dt) (r.W.y + a.y * dt) (r.W.z + a.z * dt)).Magnitude *
          CoordinateVelocity
            (Vector3.mk (r.W.x + a.x * dt) (r.W.y + a.y * dt) (r.W.z + a.z * dt)).Magnitude)
          / (C * C)) = _
    congr 2
    ring
  rw [accelerate_Tau, h]

/-- C2: `AccelerateOnProperTime(a, dtau)` first computes
`dt = gamma * dtau` with `gamma` the Lorentz factor of the pre-update
state, then maps `(W, T, Tau)` to exactly `(W + a*dt, T + dt, Tau + dtau)`. -/
theorem accelerate_on_proper_time_step_exact (r : Rocket) (a : Vector3) (dtau : ℝ) :
    (r.AccelerateOnProperTime a dtau).W =
      ⟨r.W.x + a.x * (r.LorentzFactor * dtau),
       r.W.y + a.y * (r.LorentzFactor * dtau),
       r.W.z + a.z * (r.LorentzFactor * dtau)⟩ ∧
    (r.AccelerateOnProperTime a dtau).T = r.T + r.LorentzFactor * dtau ∧
    (r.AccelerateOnProperTime a dtau).Tau = r.Tau + dtau :=
  ⟨rfl, rfl, rfl⟩

/-- C3: for every proper velocity magnitude `w ≥ 0`,
`CoordinateVelocity w < C` strictly, and hence the rocket's derived
coordinate speed `V()` stays strictly below the speed of light. -/
theorem subluminal_guarantee (w : ℝ) (hw : 0 ≤ w) (r : Rocket) :
    CoordinateVelocity w < C ∧ r.V < C :=
  ⟨coordinateVelocity_lt_C hw, coordinateVelocity_lt_C (magnitude_nonneg _)⟩

/-- Witness for C3 at `w = 3` and a concrete rocket state. -/
theorem subluminal_guarantee_witness :
    CoordinateVelocity 3 < C ∧ (Rocket.mk ⟨1, 2, 3⟩ 0 0).V < C :=
  subluminal_guarantee 3 (by norm_num) ⟨⟨1, 2, 3⟩, 0, 0⟩

/-- C8: a step with zero acceleration and zero time delta leaves the
state exactly unchanged, and a zero acceleration vector never changes `W`
for any delta. -/
theorem zero_step_identity (r : Rocket) (dt dtau : ℝ) :
    r.Accelerate ⟨0, 0, 0⟩ 0 = r ∧
    r.AccelerateOnProperTime ⟨0, 0, 0⟩ 0 = r ∧
    (r.Accelerate ⟨0, 0, 0⟩ dt).W = r.W ∧
    (r.AccelerateOnProperTime ⟨0, 0, 0⟩ dtau).W = r.W := by
  refine ⟨?_, ?_, ?_, ?_⟩ <;>
    simp [Rocket.Accelerate, Rocket.AccelerateOnProperTime]

/-- C9: `Normalized` returns the zero vector whenever the magnitude is at
or below the epsilon `9.99999974737875e-06`, and otherwise divides each
component by the magnitude. -/
theorem normalized_guard (v : Vector3) :
    (v.Magnitude ≤ normEps → v.Normalized = ⟨0, 0, 0⟩) ∧
    (normEps < v.Magnitude →
      v.Normalized = ⟨v.x / v.Magnitude, v.y / v.Magnitude, v.z / v.Magnitude⟩) := by
  constructor
  · intro h
    simp only [Vector3.Normalized]
    rw [if_pos h]
  · intro h
    simp only [Vector3.Normalized]
    rw [if_neg (not_le.mpr h)]

/-- Witness for C9: the zero vector hits the epsilon branch and a
magnitude-3 vector hits the division branch. -/
theorem normalized_guard_witness :
    (Vector3.mk 0 0 0).Normalized = ⟨0, 0, 0⟩ ∧
    (Vector3.mk 3 0 0).Normalized =
      ⟨3 / (Vector3.mk 3 0 0).Magnitude, 0 / (Vector3.mk 3 0 0).Magnitude,
       0 / (Vector3.mk 3 0 0).Magnitude⟩ := by
  have h9 : Real.sqrt 9 = 3 := by
    rw [show (9 : ℝ) = 3 ^ 2 by norm_num, Real.sqrt_sq (by norm_num)]
  constructor
  · exact (normalized_guard ⟨0, 0, 0⟩).1 (by norm_num [Vector3.Magnitude, normEps])
  · exact (normalized_guard ⟨3, 0, 0⟩).2 (by norm_num [Vector3.Magnitude, normEps, h9])

/-- C5: in a single step, the proper-time increment is at most the
coordinate-time increment, for both step functions, given non-negative
deltas. -/
theorem time_dilation_bound (r : Rocket) (a : Vector3) (dt dtau : ℝ)
    (hdt : 0 ≤ dt) (hdtau : 0 ≤ dtau) :
    (r.Accelerate a dt).Tau - r.Tau ≤ (r.Accelerate a dt).T - r.T ∧
    (r.AccelerateOnProperTime a dtau).Tau - r.Tau ≤
      (r.AccelerateOnProperTime a dtau).T - r.T := by
  constructor
  · rw [accelerate_T, accelerate_Tau]
    have h := div_le_self hdt (one_le_lorentzFactor (r.Accelerate a dt))
    linarith
  · rw [acceleratePT_T, acceleratePT_Tau]
    have h := le_mul_of_one_le_left hdtau (one_le_lorentzFactor r)
    linarith

/-- Witness for C5 at a concrete state, acceleration and deltas. -/
theorem time_dilation_bound_witness :
    ((Rocket.mk ⟨1, 0, 0⟩ 5 2).Accelerate ⟨2, 3, 4⟩ 1).Tau - 2 ≤
      ((Rocket.mk ⟨1, 0, 0⟩ 5 2).Accelerate ⟨2, 3, 4⟩ 1).T - 5 ∧
    ((Rocket.mk ⟨1, 0, 0⟩ 5 2).AccelerateOnProperTime ⟨2, 3, 4⟩ 7).Tau - 2 ≤
      ((Rocket.mk ⟨1, 0, 0⟩ 5 2).AccelerateOnProperTime ⟨2, 3, 4⟩ 7).T - 5 :=
  time_dilation_bound ⟨⟨1, 0, 0⟩, 5, 2⟩ ⟨2, 3, 4⟩ 1 7 (by norm_num) (by norm_num)

/-- C10: the divisor inside `Rocket.LorentzFactor` is strictly positive
(never zero), the factor is at least 1, and it equals the closed form
`sqrt (1 + (|W|/C)^2)`. -/
theorem lorentz_readout_sound (r : Rocket) :
    0 < Real.sqrt (1 - (r.V * r.V) / (C * C)) ∧
    1 ≤ r.LorentzFactor ∧
    r.LorentzFactor = Real.sqrt (1 + (r.W.Magnitude / C) ^ 2) := by
  refine ⟨?_, one_le_lorentzFactor r, ?_⟩
  · rw [lorentz_radicand_eq r]
    exact Real.sqrt_pos.mpr
      (pow_pos (div_pos C_pos (sqrt_CC_add_pos _)) 2)
  · set w := r.W.Magnitude with hwdef
    have hSsq : Real.sqrt (C * C + w * w) ^ 2 = C * C + w * w :=
      Real.sq_sqrt (by nlinarith [C_pos])
    have hCne : C ≠ 0 := ne_of_gt C_pos
    have h2 : 1 + (w / C) ^ 2 = (Real.sqrt (C * C + w * w) / C) ^ 2 := by
      rw [div_pow, div_pow, hSsq]
      field_simp
      ring
    rw [lorentzFactor_eq r, ← hwdef, h2,
      Real.sqrt_sq (div_nonneg (Real.sqrt_nonneg _) C_pos.le)]

theorem applyStep_mono (r : Rocket) (s : Step) (h : 0 ≤ s.delta) :
    r.T ≤ (applyStep r s).T ∧ r.Tau ≤ (applyStep r s).Tau := by
  cases s with
  | byCoordinateTime a dt =>
    simp only [Step.delta] at h
    constructor
    · rw [show applyStep r (.byCoordinateTime a dt) = r.Accelerate a dt from rfl,
        accelerate_T]
      linarith
    · rw [show applyStep r (.byCoordinateTime a dt) = r.Accelerate a dt from rfl,
        accelerate_Tau]
      have hγ := one_le_lorentzFactor (r.Accelerate a dt)
      have hd : 0 ≤ dt / (r.Accelerate a dt).LorentzFactor :=
        div_nonneg h (by linarith)
      linarith
  | byProperTime a dtau =>
    simp only [Step.delta] at h
    constructor
    · rw [show applyStep r (.byProperTime a dtau) = r.AccelerateOnProperTime a dtau from rfl,
        acceleratePT_T]
      have hγ := one_le_lorentzFactor r
      nlinarith
    · rw [show applyStep r (.byProperTime a dtau) = r.AccelerateOnProperTime a dtau from rfl,
        acceleratePT_Tau]
      linarith

/-- C6: along any sequence of steps (any mix of the two step functions)
with non-negative deltas, both `T` and `Tau` are non-decreasing between
consecutive states of the trajectory. -/
theorem times_monotone (r : Rocket) (steps : List Step)
    (h : ∀ s ∈ steps, 0 ≤ s.delta) :
    List.Chain' (fun p q => p.T ≤ q.T ∧ p.Tau ≤ q.Tau)
      (List.scanl applyStep r steps) := by
  induction steps generalizing r with
  | nil => simp
  | cons s ss ih =>
    rw [List.scanl_cons, List.singleton_append]
    apply List.chain'_cons'.mpr
    refine ⟨?_, ih (applyStep r s) fun t ht => h t (List.mem_cons_of_mem _ ht)⟩
    intro q hq
    have hh : (List.scanl applyStep (applyStep r s) ss).head? = some (applyStep r s) := by
      cases ss <;> simp [List.scanl_cons, List.scanl_nil]
    rw [hh] at hq
    simp only [Option.mem_def, Option.some.injEq] at hq
    subst hq
    exact applyStep_mono r s (h s (List.mem_cons_self _ _))

/-- Witness for C6: a concrete two-step trajectory mixing the two step
functions with non-negative deltas. -/
theorem times_monotone_witness :
    List.Chain' (fun p q => p.T ≤ q.T ∧ p.Tau ≤ q.Tau)
      (List.scanl applyStep (Rocket.mk ⟨0, 0, 0⟩ 0 0)
        [Step.byCoordinateTime ⟨1, 2, 3⟩ 2, Step.byProperTime ⟨4, 5, 6⟩ 3]) := by
  apply times_monotone
  intro s hs
  simp only [List.mem_cons, List.mem_singleton] at hs
  rcases hs with h | h | h
  · subst h; norm_num [Step.delta]
  · subst h; norm_num [Step.delta]
  · cases h

/-- C7: for `0 < v < C`, converting a coordinate velocity to proper
velocity and back is the identity: in the exact real model the round
trip returns `v` itself. -/
theorem roundtrip_conversion (v : ℝ) (h0 : 0 < v) (h1 : v < C) :
    CoordinateVelocity (ProperVelocity v) = v := by
  have hC := C_pos
  have hvC1 : v / C < 1 := (div_lt_one hC).mpr h1
  have hvC0 : 0 < v / C := div_pos h0 hC
  have hu : 0 < 1 - v / C * (v / C) := by nlinarith
  set s := Real.sqrt (1 - v / C * (v / C)) with hsdef
  have hs : 0 < s := Real.sqrt_pos.mpr hu
  have hs2 : s * s = 1 - v / C * (v / C) := Real.mul_self_sqrt hu.le
  have hsne : s ≠ 0 := ne_of_gt hs
  have hCne : C ≠ 0 := ne_of_gt hC
  have hs2' : C * C * (s * s) = C * C - v * v := by
    have h := hs2
    field_simp at h
    nlinarith [h]
  have hPV : ProperVelocity v = v / s := rfl
  rw [hPV]
  unfold CoordinateVelocity
  have key : C * C + v / s * (v / s) = (C / s) ^ 2 := by
    field_simp
    nlinarith [hs2']
  rw [key, Real.sqrt_sq (div_nonneg hC.le hs.le)]
  field_simp

/-- Witness for C7 at `v = 1`. -/
theorem roundtrip_conversion_witness :
    CoordinateVelocity (ProperVelocity 1) = 1 :=
  roundtrip_conversion 1 (by norm_num) (by norm_num [C])

/-- C4: each closed-form function equals exactly its formula from the
spec's table, including the `v0 = 0` fast path and the time-offset
branch of `VelocityWithV0`. -/
theorem closed_forms_exact (d a t v w v0 : ℝ) (hv0 : v0 ≠ 0) :
    CoordinateTime d a = Real.sqrt ((d / C) ^ 2 + 2 * d / a) ∧
    Velocity a t = (a * t) / Real.sqrt (1 + (a * t / C) ^ 2) ∧
    VelocityWithV0 a t 0 = Velocity a t ∧
    VelocityWithV0 a t v0 = Velocity a (CoordinateTimeToReachVelocity a v0 + t) ∧
    CoordinateTimeToReachVelocity a v = (C * v) / (a * Real.sqrt (C ^ 2 - v ^ 2)) ∧
    ProperVelocity v = v / Real.sqrt (1 - (v / C) ^ 2) ∧
    CoordinateVelocity w = (C * w) / Real.sqrt (C ^ 2 + w ^ 2) ∧
    ProperTime d a = (C / a) * acosh ((a * d) / C ^ 2 + 1) ∧
    LorentzFactor a t = Real.sqrt (1 + (a * t / C) ^ 2) := by
  refine ⟨?_, ?_, ?_, ?_, ?_, ?_, ?_, ?_, ?_⟩
  · show Real.sqrt (d / C * (d / C) + 2 * d / a) = _
    congr 1
    ring
  · show a * t / Real.sqrt (1 + a * t / C * (a * t / C)) = _
    congr 2
    ring
  · show (if (0 : ℝ) = 0 then Velocity a t else _) = Velocity a t
    rw [if_pos rfl]
  · show (if v0 = 0 then Velocity a t
      else Velocity a (CoordinateTimeToReachVelocity a v0 + t)) = _
    rw [if_neg hv0]
  · show C * v / (a * Real.sqrt (C * C - v * v)) = _
    congr 3
    ring
  · show v / Real.sqrt (1 - v / C * (v / C)) = _
    congr 2
    ring
  · show C * w / Real.sqrt (C * C + w * w) = _
    congr 2
    ring
  · show C / a * acosh (a * d / (C * C) + 1) = _
    congr 3
    ring
  · show Real.sqrt (1 + a * t / C * (a * t / C)) = _
    congr 1
    ring

/-- Witness for C4 at concrete arguments with `v0 = 6 ≠ 0`. -/
theorem closed_forms_exact_witness :
    CoordinateTime 1 2 = Real.sqrt ((1 / C) ^ 2 + 2 * 1 / 2) ∧
    Velocity 2 3 = (2 * 3) / Real.sqrt (1 + (2 * 3 / C) ^ 2) ∧
    VelocityWithV0 2 3 0 = Velocity 2 3 ∧
    VelocityWithV0 2 3 6 = Velocity 2 (CoordinateTimeToReachVelocity 2 6 + 3) ∧
    CoordinateTimeToReachVelocity 2 4 = (C * 4) / (2 * Real.sqrt (C ^ 2 - 4 ^ 2)) ∧
    ProperVelocity 4 = 4 / Real.sqrt (1 - (4 / C) ^ 2) ∧
    CoordinateVelocity 5 = (C * 5) / Real.sqrt (C ^ 2 + 5 ^ 2) ∧
    ProperTime 1 2 = (C / 2) * acosh ((2 * 1) / C ^ 2 + 1) ∧
    LorentzFactor 2 3 = Real.sqrt (1 + (2 * 3 / C) ^ 2) :=
  closed_forms_exact 1 2 3 4 5 6 (by norm_num)
